import Mathlib

/-!
Shallow embedding of the `atype` package (array-type model and its
index/stride iteration engine) of the `sebffischer/backend` repository,
together with proofs checking the natural-language specification against it.

Go machine integers (`int`, `int32`) are modelled as unbounded `Int`
(overflow is outside the scope of the checked claims); Go slices are
modelled as Lean lists; Go `panic` and returned `error` values are
modelled by the two constructors of `Failure`.  In-place mutation of the
shared coordinate buffer is modelled by yielding the buffer's value at
each step.
-/

namespace Backend

/-- Go: `type DType int32` (package `dtype`). -/
abbrev DType := Int

/-- Go: `InvalidDType DType = 0`. -/
def InvalidDType : DType := 0

/-- Go: `Bool DType = 1`. -/
def DBool : DType := 1

/-- Go: `Int32 DType = 4`. -/
def DInt32 : DType := 4

/-- Go: `Int64 DType = 5`. -/
def DInt64 : DType := 5

/-- Go: `Float32 DType = 11`. -/
def Float32 : DType := 11

/-- Go: `Float64 DType = 12`. -/
def Float64 : DType := 12

/-- Go: `BFloat16 DType = 13`. -/
def BFloat16 : DType := 13

/-- Go: `Complex64 DType = 14`. -/
def Complex64 : DType := 14

/-- A failure outcome of a Go operation: either a `panic` (fail-fast,
non-recoverable) or a returned `error` value (recoverable). -/
inductive Failure where
  | panicF (msg : String)
  | errorF (msg : String)
deriving DecidableEq, Repr

/-- Whether a failure is a Go `panic` (fail-fast). -/
def Failure.isPanic : Failure → Bool
  | .panicF _ => true
  | .errorF _ => false

/-- Go: `type ArrayType struct { DType dtype.DType; AxisLengths []int }`. -/
structure ArrayType where
  DType : DType
  AxisLengths : List Int
deriving DecidableEq, Repr

namespace ArrayType

/-- Go: `func Invalid() ArrayType { return ArrayType{DType: dtype.InvalidDType} }`. -/
def Invalid : ArrayType := { DType := InvalidDType, AxisLengths := [] }

/-- Go: `func (at ArrayType) Ok() bool { return at.DType != dtype.InvalidDType }`. -/
def Ok (at' : ArrayType) : Bool := at'.DType != InvalidDType

/-- Go: `func (at ArrayType) NumAxes() int { return len(at.AxisLengths) }`. -/
def NumAxes (at' : ArrayType) : Nat := at'.AxisLengths.length

/-- Go: `func (at ArrayType) IsScalar() bool { return at.Ok() && at.NumAxes() == 0 }`. -/
def IsScalar (at' : ArrayType) : Bool := at'.Ok && at'.NumAxes == 0

/-- Go: `Size` multiplies all axis lengths starting from 1 (`size *= length`). -/
def Size (at' : ArrayType) : Int := at'.AxisLengths.foldl (· * ·) 1

/-- Go: `IsZeroSize` returns whether any of the axis lengths is zero. -/
def IsZeroSize (at' : ArrayType) : Bool := at'.AxisLengths.any (fun length => length == 0)

/-- Go: `Equal` compares dtype, number of axes, then axis lengths
(scalars short-circuit to true once dtype and rank match). -/
def Equal (at' other : ArrayType) : Bool :=
  if at'.DType != other.DType then false
  else if at'.NumAxes != other.NumAxes then false
  else if at'.IsScalar then true
  else at'.AxisLengths == other.AxisLengths

/-- Go: `EqualAxes` compares number of axes then axis lengths, dtypes ignored. -/
def EqualAxes (at' other : ArrayType) : Bool :=
  if at'.NumAxes != other.NumAxes then false
  else if at'.IsScalar then true
  else at'.AxisLengths == other.AxisLengths

/-- Go: `Clone` deep-copies the array type (`slices.Clone` of the axis lengths);
on immutable Lean values this is the identity copy. -/
def Clone (at' : ArrayType) : ArrayType :=
  { DType := at'.DType, AxisLengths := at'.AxisLengths }

end ArrayType

/-- Go: `func Make(dtype dtype.DType, axisLengths ...int) ArrayType` builds the
value and panics (`panic(errors.Errorf(...))`) if any axis length is negative. -/
def Make (dtype' : DType) (axisLengths : List Int) : Except Failure ArrayType :=
  let at' : ArrayType := { DType := dtype', AxisLengths := axisLengths }
  if axisLengths.any (fun length => length < 0) then
    .error (.panicF "atype.Make: cannot create an array type with an axis with length < 0")
  else
    .ok at'

/-- Go: `func ConcatenateAxes(at1, at2 ArrayType) (result ArrayType)`; the zero
value of the named return `result` is the invalid array type. -/
def ConcatenateAxes (at1 at2 : ArrayType) : ArrayType :=
  if at1.DType = InvalidDType ∨ at2.DType = InvalidDType then ArrayType.Invalid
  else if at1.DType ≠ at2.DType then ArrayType.Invalid
  else if at1.IsScalar then at2.Clone
  else if at2.IsScalar then at1.Clone
  else { DType := at1.DType, AxisLengths := at1.AxisLengths ++ at2.AxisLengths }

/-! ### Binary (gob) serialization

`GobSerialize` writes the dtype then the axis-length slice to a `gob.Encoder`;
`GobDeserialize` reads them back in the same order.  The encoder/decoder
stream is modelled as a list of encoded values. -/

/-- One value written to a `gob` stream by this package: either a `DType`
or an `[]int` slice. -/
inductive GobValue where
  | gobDType (d : DType)
  | gobIntSlice (l : List Int)
deriving DecidableEq, Repr

/-- Go: `GobSerialize` encodes `at.DType` then `at.AxisLengths` onto the stream. -/
def GobSerialize (at' : ArrayType) (stream : List GobValue) : List GobValue :=
  stream ++ [.gobDType at'.DType, .gobIntSlice at'.AxisLengths]

/-- Go: `GobDeserialize` decodes a `DType` then an `[]int` from the stream,
erroring if the stream does not hold them in that order. -/
def GobDeserialize (stream : List GobValue) :
    Except Failure (ArrayType × List GobValue) :=
  match stream with
  | .gobDType d :: .gobIntSlice l :: rest =>
      .ok ({ DType := d, AxisLengths := l }, rest)
  | _ => .error (.errorF "failed to deserialize ArrayType")

/-! ### Strides -/

/-- The downward loop of `Strides`: builds the stride list from the last axis
to the first, threading `currentStride` (`strides[axis] = currentStride;
currentStride *= at.AxisLengths[axis]`). Returns the stride list together
with the final `currentStride`. -/
def stridesAux : List Int → List Int × Int
  | [] => ([], 1)
  | l :: ls =>
      let (s, currentStride) := stridesAux ls
      (currentStride :: s, currentStride * l)

/-- Go: `func (at ArrayType) Strides() (strides []int)`: empty for rank 0,
all zeros when some axis length is zero, otherwise row-major element-unit
strides with the last axis contiguous. -/
def ArrayType.Strides (at' : ArrayType) : List Int :=
  if at'.NumAxes = 0 then []
  else if at'.IsZeroSize then List.replicate at'.NumAxes 0
  else (stridesAux at'.AxisLengths).1

/-! ### Full iteration (`Iter` / `IterOn`)

The Go iterator is an in-place N-digit counter.  One pass of the Go
`for axis := numAxes - 1; axis >= 0; axis--` increment loop of "Version 2"
is `incV2` below (recursion reaches the last axis first, mirroring the
walk from the last axis towards the first): `.ok` is a successful
increment (Go `continue v2Yielder`), `.error` is carry-out past axis 0
(Go `break`), carrying the indices as left by the loop (length-1 axes
skipped, overflowed axes reset to 0). -/

/-- One increment step of the Version-2 (dense) counter of `IterOn`. -/
def incV2 : List Int → List Int → Except (List Int) (List Int)
  | [], _ => .error []
  | _ :: _, [] => .error []
  | l :: ls, i :: is =>
    match incV2 ls is with
    | .ok is' => .ok (i :: is')
    | .error is0 =>
      if l = 1 then .error (i :: is0)
      else if i + 1 < l then .ok ((i + 1) :: is0)
      else .error (0 :: is0)

/-- The yield/increment loop of Version 2 of `IterOn`: yield the current
`(flatIdx, indices)` pair, then increment; stop on carry-out.  The Go loop
is unbounded; `fuel` bounds the number of yields and is instantiated with
the array size, which the theorems below show is exactly the number of
yields the Go loop performs. -/
def iterLoopV2 (lengths : List Int) : Nat → Int → List Int → List (Int × List Int)
  | 0, _, _ => []
  | fuel + 1, flatIdx, indices =>
    (flatIdx, indices) ::
      match incV2 lengths indices with
      | .ok next => iterLoopV2 lengths fuel (flatIdx + 1) next
      | .error _ => []

/-- One increment step of the Version-3 (sparse) counter of `IterOn` /
of the `spatialAxes` walk: increment `indices[axis]` for each listed axis in
order, resetting to 0 and carrying to the next listed axis on overflow;
`.error` is carry-out past the last listed axis. -/
def incV3 (lengths : List Int) : List Nat → List Int → Except (List Int) (List Int)
  | [], indices => .error indices
  | axis :: rest, indices =>
    let i := indices.getD axis 0 + 1
    if i < lengths.getD axis 0 then .ok (indices.set axis i)
    else incV3 lengths rest (indices.set axis 0)

/-- The yield/increment loop of Version 3 of `IterOn` (same shape as
`iterLoopV2`, over the precomputed `spatialAxes`). -/
def iterLoopV3 (lengths : List Int) (spatialAxes : List Nat) :
    Nat → Int → List Int → List (Int × List Int)
  | 0, _, _ => []
  | fuel + 1, flatIdx, indices =>
    (flatIdx, indices) ::
      match incV3 lengths spatialAxes indices with
      | .ok next => iterLoopV3 lengths spatialAxes fuel (flatIdx + 1) next
      | .error _ => []

/-- The count of "non-trivial" axes of `IterOn`: axes whose length is > 1. -/
def numNonTrivial (lengths : List Int) : Nat :=
  (lengths.filter (fun length => 1 < length)).length

/-- Go (Version 3 of `IterOn`): the axes with length > 1, in reverse order
(`slices.Reverse(spatialAxes)`), so the last axis is iterated first. -/
def spatialAxesOf (lengths : List Int) : List Nat :=
  ((List.range lengths.length).filter (fun axis => 1 < lengths.getD axis 0)).reverse

/-- The body of the `iter.Seq2` closure returned by `ArrayType.IterOn`,
collecting every yielded `(flatIndex, indices)` pair (the consumer never
cancels).  The indices buffer's contents are represented by the yielded
values: the buffer is zeroed before the first yield whenever the rank is
positive, and yielded as-is (necessarily `[]`) at rank 0. -/
def IterOnRun (at' : Backend.ArrayType) : List (Int × List Int) :=
  if !at'.Ok then []
  else if at'.NumAxes = 0 then [(0, [])]
  else if at'.AxisLengths.any (fun length => length ≤ 0) then []
  else
    let lengths := at'.AxisLengths
    let indices : List Int := List.replicate at'.NumAxes 0
    if numNonTrivial lengths = 0 then [(0, indices)]
    else if at'.NumAxes > numNonTrivial lengths + 2 then
      iterLoopV2 lengths at'.Size.toNat 0 indices
    else
      iterLoopV3 lengths (spatialAxesOf lengths) at'.Size.toNat 0 indices

/-- Go: `func (at ArrayType) IterOn(indices []int) iter.Seq2[int, []int]`:
panics unless `len(indices) == at.NumAxes()`, then iterates. -/
def ArrayType.IterOn (at' : ArrayType) (indices : List Int) :
    Except Failure (List (Int × List Int)) :=
  if indices.length ≠ at'.NumAxes then
    .error (.panicF "ArrayType.IterOn given len(indices) not equal to the number of axes")
  else .ok (IterOnRun at')

/-- Go: `func (at ArrayType) Iter() iter.Seq2[int, []int]`: allocates a fresh
indices buffer of length `NumAxes` and defers to `IterOn`. -/
def ArrayType.Iter (at' : ArrayType) : List (Int × List Int) := IterOnRun at'

/-! ### Partial iteration (`IterOnAxes`) -/

/-- The flat-index accumulation of `IterOnAxes`
(`flatIdx += indices[axis] * strides[axis]` over all axes). -/
def dotProd (indices strides : List Int) : Int :=
  (indices.zip strides).foldl (fun acc p => acc + p.1 * p.2) 0

/-- The validation/initialization scan of `IterOnAxes` over `axesToIterate`:
panics on an out-of-range axis, returns `none` (empty iteration) on a
non-positive axis length, and otherwise zeroes the indices at each listed
axis. -/
def initIterAxes (lengths : List Int) :
    List Int → List Int → Except Backend.Failure (Option (List Int))
  | [], indices => .ok (some indices)
  | axis :: rest, indices =>
    if axis < 0 ∨ (lengths.length : Int) ≤ axis then
      .error (.panicF "ArrayType.IterOnAxes: invalid axis, must be 0 <= axis < NumAxes")
    else if lengths.getD axis.toNat 0 ≤ 0 then .ok none
    else initIterAxes lengths rest (indices.set axis.toNat 0)

/-- One increment step of the `IterOnAxes` loop, walking `axesToIterate` in
reverse (the argument is the reversed list): `indices[axis]++` and
`flatIdx += strides[axis]`; on overflow `flatIdx -= indices[axis]*strides[axis]`
(with the already-incremented value) and `indices[axis] = 0`, carrying to
the previous listed axis.  `.error` is carry-out (Go `break`). -/
def incOnAxes (lengths strides : List Int) :
    List Int → Int → List Int → Except (Int × List Int) (Int × List Int)
  | [], flatIdx, indices => .error (flatIdx, indices)
  | axis :: rest, flatIdx, indices =>
    let a := axis.toNat
    let i := indices.getD a 0 + 1
    let flatIdx := flatIdx + strides.getD a 0
    if i < lengths.getD a 0 then .ok (flatIdx, indices.set a i)
    else incOnAxes lengths strides rest (flatIdx - i * strides.getD a 0) (indices.set a 0)

/-- The yield/increment loop of `IterOnAxes` (fuel-bounded as in
`iterLoopV2`). -/
def iterLoopOnAxes (lengths strides revAxes : List Int) :
    Nat → Int → List Int → List (Int × List Int)
  | 0, _, _ => []
  | fuel + 1, flatIdx, indices =>
    (flatIdx, indices) ::
      match incOnAxes lengths strides revAxes flatIdx indices with
      | .ok (flatIdx', next) => iterLoopOnAxes lengths strides revAxes fuel flatIdx' next
      | .error _ => []

/-- Fuel for `iterLoopOnAxes`: the product of the lengths of the iterated
axes (the exact number of yields for distinct in-range axes). -/
def iterOnAxesFuel (lengths : List Int) (axesToIterate : List Int) : Nat :=
  (axesToIterate.map (fun axis => (lengths.getD axis.toNat 0).toNat)).prod

/-- The body of the `iter.Seq2` closure returned by `IterOnAxes`, run to
completion: early return for invalid array types, the rank-0 single yield,
the validation/initialization scan, the initial flat-index computation,
then the yield/increment loop. -/
def ArrayType.iterOnAxesRun (at' : ArrayType) (axesToIterate strides indices : List Int) :
    Except Failure (List (Int × List Int)) :=
  if !at'.Ok then .ok []
  else if at'.NumAxes = 0 then .ok [(0, indices)]
  else
    match initIterAxes at'.AxisLengths axesToIterate indices with
    | .error f => .error f
    | .ok none => .ok []
    | .ok (some indices) =>
      let flatIdx := dotProd indices strides
      .ok (iterLoopOnAxes at'.AxisLengths strides axesToIterate.reverse
            (iterOnAxesFuel at'.AxisLengths axesToIterate) flatIdx indices)

/-- `IterOnAxes` after the strides argument has been validated/defaulted:
validates/defaults the indices buffer. -/
def ArrayType.iterOnAxesChecked (at' : ArrayType) (axesToIterate strides : List Int)
    (indicesArg : Option (List Int)) : Except Failure (List (Int × List Int)) :=
  let numAxes := at'.NumAxes
  match indicesArg with
  | some i =>
    if i.length ≠ numAxes then
      .error (.panicF "ArrayType.IterOnAxes given len(indices) not equal to the NumAxes")
    else ArrayType.iterOnAxesRun at' axesToIterate strides i
  | none => ArrayType.iterOnAxesRun at' axesToIterate strides (List.replicate numAxes 0)

/-- Go: `func (at ArrayType) IterOnAxes(axesToIterate, strides, indices []int)
iter.Seq2[int, []int]`, run to completion.  `none` for `strides`/`indices`
models the Go `nil` defaults (freshly computed strides / a fresh zero
buffer); a supplied slice of the wrong length panics. -/
def ArrayType.IterOnAxes (at' : ArrayType) (axesToIterate : List Int)
    (stridesArg indicesArg : Option (List Int)) :
    Except Failure (List (Int × List Int)) :=
  let numAxes := at'.NumAxes
  match stridesArg with
  | some s =>
    if s.length ≠ numAxes then
      .error (.panicF "ArrayType.IterOnAxes given len(strides) not equal to the NumAxes")
    else ArrayType.iterOnAxesChecked at' axesToIterate s indicesArg
  | none => ArrayType.iterOnAxesChecked at' axesToIterate at'.Strides indicesArg

/-! ### Reference row-major enumeration

`rowMajorCoords` is the reference enumeration the specification describes:
the Cartesian product of the axis ranges in row-major order, the last axis
fastest-varying.  `enumFromInt` pairs a list's elements with consecutive
flat indices.  These are the yardsticks the iteration engine is compared
against. -/

/-- Row-major Cartesian product of the axis ranges `0 ≤ c < length`. -/
def rowMajorCoords : List Int → List (List Int)
  | [] => [[]]
  | l :: ls =>
      (List.range l.toNat).flatMap
        (fun a => (rowMajorCoords ls).map (fun c => ((a : Int) :: c)))

/-- Pair each element with consecutive integers starting at `k`. -/
def enumFromInt {α : Type} : Int → List α → List (Int × α)
  | _, [] => []
  | k, x :: xs => (k, x) :: enumFromInt (k + 1) xs

/-- The (natural-number) product of the axis lengths. -/
def natProd (lengths : List Int) : Nat := (lengths.map Int.toNat).prod

/-- The row-major rank of a coordinate vector: its position in the
row-major enumeration. -/
def toFlat : List Int → List Int → Int
  | _ :: ls, i :: is => i * (natProd ls : Int) + toFlat ls is
  | _, _ => 0

/-- A coordinate vector that is componentwise within the axis ranges. -/
def ValidCoords (lengths is : List Int) : Prop :=
  List.Forall₂ (fun l i => 0 ≤ i ∧ i < l) lengths is

/-- Whether a Go operation outcome is a panic. -/
def resultIsPanic {α : Type} : Except Failure α → Bool
  | .error f => f.isPanic
  | .ok _ => false

/-- Whether a Go operation outcome is a returned (recoverable) error. -/
def resultIsRecoverableError {α : Type} : Except Failure α → Bool
  | .error f => !f.isPanic
  | .ok _ => false

/-! ### Shape inference (`FromAnyValue`) -/

/-- The Go scalar host representations relevant to shape inference. -/
inductive GoScalarKind where
  | goFloat64
  | goFloat32
  | goInt64
  | goInt32
  | goComplex64
  | goBool
  | goString
deriving DecidableEq, Repr

/-- Modelled from the spec: `dtype.FromGoType` (package `backend/dtype`) is
not under `src/`; per §4.6 it maps a supported scalar host representation
to its element kind and an unsupported one to the invalid element kind. -/
def FromGoType : GoScalarKind → DType
  | .goFloat64 => Float64
  | .goFloat32 => Float32
  | .goInt64 => DInt64
  | .goInt32 => DInt32
  | .goComplex64 => Complex64
  | .goBool => DBool
  | .goString => InvalidDType

/-- A Go `any` value as seen by `FromAnyValue`: an arbitrarily nested
slice-of-scalars.  A scalar carries its host representation; in Go every
sibling of a slice shares the same static element type, which this model
reflects by dispatching on the value itself. -/
inductive GoValue where
  | scalarV (k : GoScalarKind)
  | sliceV (elems : List GoValue)

/-- The recoverable errors of shape inference, carrying the data the Go
error messages report (the unsupported type; the two conflicting array
types). -/
inductive InferError where
  | unsupportedType (k : GoScalarKind)
  | emptySlice
  | shapeMismatch (a b : ArrayType)
deriving DecidableEq, Repr

mutual

/-- Go: `arrayTypeForAnyValueRecursive(arrayType *ArrayType, v, t)`: at a
scalar, sets the element kind (failing if unsupported); at a slice,
appends the slice length as a new axis, fails on an empty slice, recurses
into element 0, then checks every further element against that result via
the sibling loop `checkSiblings`. -/
def arrayTypeForAnyValueRecursive (arrayType : ArrayType) (v : GoValue) :
    Except InferError ArrayType :=
  match v with
  | .scalarV k =>
      if FromGoType k = InvalidDType then .error (.unsupportedType k)
      else .ok { arrayType with DType := FromGoType k }
  | .sliceV elems =>
      let arrayType' := { arrayType with
        AxisLengths := arrayType.AxisLengths ++ [(elems.length : Int)] }
      let arrayTypePrefix := arrayType'.Clone
      match elems with
      | [] => .error .emptySlice
      | v0 :: rest =>
        match arrayTypeForAnyValueRecursive arrayType' v0 with
        | .error e => .error e
        | .ok result => checkSiblings arrayTypePrefix result rest

/-- Go: the `for ii := 1; ii < v.Len(); ii++` loop of
`arrayTypeForAnyValueRecursive`: each further sibling is reduced from a
clone of the prefix and must be `Equal` to the first element's result,
else a shape-mismatch error reporting both is returned. -/
def checkSiblings (pre result : ArrayType) (rest : List GoValue) :
    Except InferError ArrayType :=
  match rest with
  | [] => .ok result
  | vi :: rest' =>
    match arrayTypeForAnyValueRecursive pre.Clone vi with
    | .error e => .error e
    | .ok test =>
        if result.Equal test then checkSiblings pre result rest'
        else .error (.shapeMismatch result test)

end

/-- Go: `FromAnyValue(v any)`: runs the recursion on a zero-valued
`ArrayType` (invalid element kind, no axes). -/
def FromAnyValue (v : GoValue) : Except InferError ArrayType :=
  arrayTypeForAnyValueRecursive { DType := InvalidDType, AxisLengths := [] } v

/-- The regularly nested sequence-of-scalars with axis lengths `dims` and
scalars of kind `k` at the leaves. -/
def regularValue (k : GoScalarKind) : List Nat → GoValue
  | [] => .scalarV k
  | d :: ds => .sliceV (List.replicate d (regularValue k ds))

mutual

/-- Whether a value contains an empty slice at any nesting level. -/
def containsEmptySlice : GoValue → Bool
  | .scalarV _ => false
  | .sliceV elems => elems.isEmpty || anyContainsEmptySlice elems

/-- `containsEmptySlice` over a list of values. -/
def anyContainsEmptySlice : List GoValue → Bool
  | [] => false
  | v :: vs => containsEmptySlice v || anyContainsEmptySlice vs

end

/-- Whether a shape-inference outcome is a shape-mismatch error. -/
def isShapeMismatchError (r : Except InferError ArrayType) : Bool :=
  match r with
  | .error (.shapeMismatch _ _) => true
  | _ => false

/-- Structural induction over nested `GoValue`s: to prove `P` everywhere it
suffices to prove it for scalars and for slices whose members all satisfy
it. -/
def GoValue.inductionOn (P : GoValue → Prop)
    (hs : ∀ k, P (.scalarV k))
    (hl : ∀ elems, (∀ v ∈ elems, P v) → P (.sliceV elems)) :
    ∀ v, P v
  | .scalarV k => hs k
  | .sliceV elems =>
      hl elems (fun u hu => GoValue.inductionOn P hs hl u)
termination_by v => sizeOf v
decreasing_by
  have h := List.sizeOf_lt_of_mem hu
  simp only [GoValue.sliceV.sizeOf_spec]
  omega

theorem toFlat_nil_left (is : List Int) : toFlat [] is = 0 := by
  cases is <;> rfl

theorem natProd_cons (l : Int) (ls : List Int) :
    natProd (l :: ls) = l.toNat * natProd ls := by
  simp [natProd]

theorem length_rowMajorCoords (lengths : List Int) :
    (rowMajorCoords lengths).length = natProd lengths := by
  induction lengths with
  | nil => simp [rowMajorCoords, natProd]
  | cons l ls ih =>
      rw [rowMajorCoords, List.length_flatMap]
      rw [List.map_congr_left (g := fun _ => natProd ls) (fun a _ => by simp [ih])]
      simp [natProd_cons, List.map_const', List.sum_replicate, smul_eq_mul]

theorem length_enumFromInt {α : Type} (k : Int) (xs : List α) :
    (enumFromInt k xs).length = xs.length := by
  induction xs generalizing k with
  | nil => rfl
  | cons x xs ih => simp [enumFromInt, ih]

theorem map_fst_enumFromInt {α : Type} (k : Int) (xs : List α) :
    (enumFromInt k xs).map Prod.fst
      = (List.range xs.length).map (fun (j : Nat) => k + (j : Int)) := by
  induction xs generalizing k with
  | nil => rfl
  | cons x xs ih =>
      rw [enumFromInt, List.map_cons, ih, List.length_cons,
        List.range_succ_eq_map, List.map_cons, List.map_map]
      refine congrArg₂ List.cons (by simp) ?_
      refine List.map_congr_left (fun j _ => ?_)
      simp only [Function.comp_apply, Nat.succ_eq_add_one]
      push_cast
      ring

theorem toFlat_bounds {lengths is : List Int} (hv : ValidCoords lengths is) :
    0 ≤ toFlat lengths is ∧ toFlat lengths is < (natProd lengths : Int) := by
  induction hv with
  | nil => simp [toFlat, natProd]
  | @cons l i ls is h hv ih =>
      obtain ⟨h0, h1⟩ := h
      obtain ⟨ih0, ih1⟩ := ih
      have hP : (0 : Int) < (natProd ls : Int) := lt_of_le_of_lt ih0 ih1
      constructor
      · simp only [toFlat]
        positivity
      · simp only [toFlat, natProd_cons]
        have hl : ((l.toNat : Int)) = l := Int.toNat_of_nonneg (le_trans h0 (le_of_lt h1))
        push_cast
        rw [hl]
        calc i * (natProd ls : Int) + toFlat ls is
            < i * (natProd ls : Int) + (natProd ls : Int) := by omega
          _ = (i + 1) * (natProd ls : Int) := by ring
          _ ≤ l * (natProd ls : Int) := by
              exact mul_le_mul_of_nonneg_right (by omega) (le_of_lt hP)

theorem valid_replicate {lengths : List Int} (h1 : ∀ l ∈ lengths, 1 ≤ l) :
    ValidCoords lengths (List.replicate lengths.length 0) := by
  induction lengths with
  | nil => exact List.Forall₂.nil
  | cons l ls ih =>
      simp only [List.length_cons, List.replicate_succ]
      exact List.Forall₂.cons
        ⟨le_refl 0, h1 l (by simp)⟩
        (ih (fun x hx => h1 x (by simp [hx])))

theorem toFlat_replicate_zero (lengths : List Int) :
    toFlat lengths (List.replicate lengths.length 0) = 0 := by
  induction lengths with
  | nil => rfl
  | cons l ls ih => simp [toFlat, List.replicate_succ, ih]

/-- The increment step of the dense counter is the row-major successor:
on `.ok` the rank increases by exactly 1 (and the coordinates stay valid);
on `.error` the coordinates were maximal (rank `natProd - 1`) and the
carried-out payload is the valid all-zero-rank vector. -/
theorem incV2_spec {lengths is : List Int} (hv : ValidCoords lengths is) :
    (∀ is', incV2 lengths is = .ok is' →
      ValidCoords lengths is' ∧ toFlat lengths is' = toFlat lengths is + 1)
    ∧ (∀ is0, incV2 lengths is = .error is0 →
      toFlat lengths is = (natProd lengths : Int) - 1
        ∧ ValidCoords lengths is0 ∧ toFlat lengths is0 = 0) := by
  induction hv with
  | nil =>
      constructor
      · intro is' h
        simp [incV2] at h
      · intro is0 h
        simp only [incV2] at h
        injection h with h
        subst h
        exact ⟨by simp [toFlat, natProd], List.Forall₂.nil, rfl⟩
  | @cons l i ls is h hv ih =>
      obtain ⟨h0, h1⟩ := h
      have hl1 : (1 : Int) ≤ l := by omega
      have hlnat : ((l.toNat : Int)) = l := Int.toNat_of_nonneg (by omega)
      have hP1 : 1 ≤ (natProd ls : Int) := by
        have := toFlat_bounds hv
        omega
      constructor
      · intro is' hok
        rcases hm : incV2 ls is with is0 | isn
        · -- tail carried out
          have ⟨hmax, hv0, ht0⟩ := ih.2 is0 hm
          simp only [incV2, hm] at hok
          by_cases hone : l = 1
          · simp [hone] at hok
          · rw [if_neg hone] at hok
            by_cases hlt : i + 1 < l
            · rw [if_pos hlt] at hok
              injection hok with hok
              subst hok
              refine ⟨List.Forall₂.cons ⟨by omega, hlt⟩ hv0, ?_⟩
              simp only [toFlat, hmax, ht0]
              ring
            · rw [if_neg hlt] at hok
              exact absurd hok (by simp)
        · -- tail incremented
          have ⟨hvn, htn⟩ := ih.1 isn hm
          simp only [incV2, hm] at hok
          injection hok with hok
          subst hok
          refine ⟨List.Forall₂.cons ⟨h0, h1⟩ hvn, ?_⟩
          simp only [toFlat, htn]
          ring
      · intro is0 herr
        rcases hm : incV2 ls is with is0' | isn
        · have ⟨hmax, hv0, ht0⟩ := ih.2 is0' hm
          simp only [incV2, hm] at herr
          by_cases hone : l = 1
          · rw [if_pos hone] at herr
            injection herr with herr
            subst herr
            have hi0 : i = 0 := by omega
            subst hi0
            refine ⟨?_, List.Forall₂.cons ⟨h0, h1⟩ hv0, ?_⟩
            · simp only [toFlat, hmax, natProd_cons, hone, Int.toNat_one]
              push_cast
              ring
            · simp [toFlat, ht0]
          · rw [if_neg hone] at herr
            by_cases hlt : i + 1 < l
            · rw [if_pos hlt] at herr
              exact absurd herr (by simp)
            · rw [if_neg hlt] at herr
              injection herr with herr
              subst herr
              have hitop : i = l - 1 := by omega
              refine ⟨?_, List.Forall₂.cons ⟨le_refl 0, by omega⟩ hv0, ?_⟩
              · simp only [toFlat, hmax, natProd_cons]
                push_cast
                rw [hlnat, hitop]
                ring
              · simp [toFlat, ht0]
        · have ⟨hvn, htn⟩ := ih.1 isn hm
          simp only [incV2, hm] at herr
          exact absurd herr (by simp)

/-- Indexing into a `flatMap` over `List.range` whose blocks all have
length `P`: position `i * P + t` lands at offset `t` of block `i`. -/
theorem flatMap_range_getElem? {α : Type} (P : Nat) :
    ∀ (n : Nat) (f : Nat → List α), (∀ a, a < n → (f a).length = P) →
      ∀ i t, i < n → t < P →
        ((List.range n).flatMap f)[i * P + t]? = (f i)[t]? := by
  intro n
  induction n with
  | zero => intro f _ i t hi; omega
  | succ n ih =>
      intro f hlen i t hi ht
      rw [List.range_succ_eq_map, List.flatMap_cons, List.flatMap_map]
      rcases i with _ | j
      · rw [Nat.zero_mul, Nat.zero_add]
        rw [List.getElem?_append_left (by rw [hlen 0 (Nat.succ_pos n)]; exact ht)]
      · have hoff : (j + 1) * P + t = (f 0).length + (j * P + t) := by
          rw [hlen 0 (Nat.succ_pos n)]
          ring
        rw [hoff, List.getElem?_append_right (Nat.le_add_right _ _), Nat.add_sub_cancel_left]
        exact ih (fun a => f (a + 1)) (fun a ha => hlen (a + 1) (by omega)) j t (by omega) ht

/-- A valid coordinate vector sits at position `toFlat` of the row-major
reference enumeration. -/
theorem getElem?_rowMajorCoords {lengths is : List Int} (hv : ValidCoords lengths is) :
    (rowMajorCoords lengths)[(toFlat lengths is).toNat]? = some is := by
  induction hv with
  | nil => rfl
  | @cons l i ls is h hv ih =>
      obtain ⟨h0, h1⟩ := h
      obtain ⟨ht0, ht1⟩ := toFlat_bounds hv
      have hkey : toFlat (l :: ls) (i :: is)
          = ((i.toNat * natProd ls + (toFlat ls is).toNat : Nat) : Int) := by
        simp only [toFlat]
        push_cast
        rw [Int.toNat_of_nonneg h0, Int.toNat_of_nonneg ht0]
      rw [hkey, Int.toNat_natCast, rowMajorCoords]
      rw [flatMap_range_getElem? (natProd ls) l.toNat _
        (fun a _ => by rw [List.length_map, length_rowMajorCoords])
        i.toNat (toFlat ls is).toNat (by omega) (by omega)]
      rw [List.getElem?_map, ih]
      simp [Int.toNat_of_nonneg h0]

/-- The dense yield/increment loop, started at any valid coordinate vector
with enough fuel, yields the tail of the reference enumeration starting at
that vector's rank. -/
theorem iterLoopV2_eq (lengths : List Int) :
    ∀ (fuel : Nat) (is : List Int) (flat : Int), ValidCoords lengths is →
      natProd lengths ≤ fuel + (toFlat lengths is).toNat →
      iterLoopV2 lengths fuel flat is
        = enumFromInt flat ((rowMajorCoords lengths).drop (toFlat lengths is).toNat) := by
  intro fuel
  induction fuel with
  | zero =>
      intro is flat hv hle
      have hdrop : (rowMajorCoords lengths).drop (toFlat lengths is).toNat = [] := by
        apply List.drop_eq_nil_of_le
        rw [length_rowMajorCoords]
        omega
      rw [hdrop]
      rfl
  | succ fuel ih =>
      intro is flat hv hle
      have hb := toFlat_bounds hv
      have hklt : (toFlat lengths is).toNat < (rowMajorCoords lengths).length := by
        rw [length_rowMajorCoords]
        omega
      have hdrops : (rowMajorCoords lengths).drop (toFlat lengths is).toNat
          = is :: (rowMajorCoords lengths).drop ((toFlat lengths is).toNat + 1) := by
        rw [List.drop_eq_getElem_cons hklt]
        congr 1
        have hq := getElem?_rowMajorCoords hv
        rw [List.getElem?_eq_getElem hklt] at hq
        exact Option.some.inj hq
      rw [hdrops]
      simp only [iterLoopV2, enumFromInt]
      refine congrArg₂ List.cons rfl ?_
      rcases hm : incV2 lengths is with is0 | next
      · dsimp only
        have ⟨hmax, _, _⟩ := (incV2_spec hv).2 is0 hm
        have hdrop : (rowMajorCoords lengths).drop ((toFlat lengths is).toNat + 1) = [] := by
          apply List.drop_eq_nil_of_le
          rw [length_rowMajorCoords]
          omega
        rw [hdrop]
        rfl
      · dsimp only
        have ⟨hvn, htn⟩ := (incV2_spec hv).1 next hm
        have hnat : (toFlat lengths next).toNat = (toFlat lengths is).toNat + 1 := by
          omega
        rw [ih next (flat + 1) hvn (by omega), hnat]

/-- The dense strategy, started as `IterOn` starts it (all-zero indices,
fuel equal to the array size), yields exactly the reference row-major
enumeration. -/
theorem iterLoopV2_full (lengths : List Int) (h1 : ∀ l ∈ lengths, 1 ≤ l) :
    iterLoopV2 lengths (natProd lengths) 0 (List.replicate lengths.length 0)
      = enumFromInt 0 (rowMajorCoords lengths) := by
  have hv := valid_replicate h1
  have h := iterLoopV2_eq lengths (natProd lengths)
    (List.replicate lengths.length 0) 0 hv
    (by rw [toFlat_replicate_zero]; omega)
  rw [toFlat_replicate_zero] at h
  simpa using h

/-- Peeling the head axis off the reversed non-trivial-axes list:
the reversed list for `l :: ls` is the shifted reversed list for `ls`
followed by axis 0 when `l` is non-trivial. -/
theorem spatialAxesOf_cons (l : Int) (ls : List Int) :
    spatialAxesOf (l :: ls)
      = (spatialAxesOf ls).map (· + 1) ++ (if 1 < l then [0] else []) := by
  unfold spatialAxesOf
  rw [List.length_cons, List.range_succ_eq_map, List.filter_cons, List.filter_map]
  have hps : ((fun axis => decide (1 < (l :: ls).getD axis 0)) ∘ Nat.succ)
      = (fun axis => decide (1 < ls.getD axis 0)) := by
    funext a
    simp [List.getD]
  rw [hps]
  by_cases h : 1 < l
  · rw [if_pos (by simp [List.getD, h]), if_pos h]
    rw [List.reverse_cons, List.map_reverse]
  · rw [if_neg (by simp [List.getD, h]), if_neg h]
    rw [List.map_reverse, List.append_nil]

/-- Axes listed as `axis + 1` operate on the tail of the indices vector:
the sparse increment over shifted axes factors through the tail. -/
theorem incV3_shift (l : Int) (ls : List Int) :
    ∀ (sa rest : List Nat) (i : Int) (is : List Int),
      incV3 (l :: ls) (sa.map (· + 1) ++ rest) (i :: is)
        = match incV3 ls sa is with
          | .ok is' => .ok (i :: is')
          | .error is0 => incV3 (l :: ls) rest (i :: is0) := by
  intro sa
  induction sa with
  | nil => intro rest i is; rfl
  | cons a sa ih =>
      intro rest i is
      show incV3 (l :: ls) ((a + 1) :: (sa.map (· + 1) ++ rest)) (i :: is) = _
      rw [incV3]
      have hgd : (i :: is).getD (a + 1) 0 = is.getD a 0 := by simp [List.getD]
      have hld : (l :: ls).getD (a + 1) 0 = ls.getD a 0 := by simp [List.getD]
      rw [hgd, hld]
      by_cases h : is.getD a 0 + 1 < ls.getD a 0
      · rw [if_pos h]
        rw [show incV3 ls (a :: sa) is = .ok (is.set a (is.getD a 0 + 1)) from by
          rw [incV3, if_pos h]]
        rfl
      · rw [if_neg h]
        rw [show incV3 ls (a :: sa) is = incV3 ls sa (is.set a 0) from by
          rw [incV3, if_neg h]]
        rw [show (i :: is).set (a + 1) 0 = i :: is.set a 0 from rfl]
        exact ih rest i (is.set a 0)

/-- With every axis length at least 1, one sparse increment over the
reversed non-trivial axes equals one dense increment. -/
theorem incV3_eq_incV2 :
    ∀ (lengths is : List Int), (∀ l ∈ lengths, 1 ≤ l) →
      is.length = lengths.length →
      incV3 lengths (spatialAxesOf lengths) is = incV2 lengths is := by
  intro lengths
  induction lengths with
  | nil =>
      intro is _ hlen
      rw [List.length_nil, List.length_eq_zero] at hlen
      subst hlen
      rfl
  | cons l ls ih =>
      intro is h1 hlen
      rcases is with _ | ⟨i, is⟩
      · simp at hlen
      · rw [spatialAxesOf_cons, incV3_shift]
        rw [ih is (fun x hx => h1 x (by simp [hx])) (by simpa using hlen)]
        have hl1 : (1 : Int) ≤ l := h1 l (by simp)
        rcases hm : incV2 ls is with is0 | next
        · dsimp only
          rw [incV2, hm]
          dsimp only
          by_cases hone : l = 1
          · rw [if_pos hone, if_neg (by omega)]
            rfl
          · rw [if_neg hone, if_pos (by omega)]
            show incV3 (l :: ls) [0] (i :: is0) = _
            rw [incV3]
            have hgd : (i :: is0).getD 0 0 = i := rfl
            have hld : (l :: ls).getD 0 0 = l := rfl
            rw [hgd, hld]
            by_cases hlt : i + 1 < l
            · rw [if_pos hlt, if_pos hlt]
              rfl
            · rw [if_neg hlt, if_neg hlt]
              rfl
        · dsimp only
          rw [incV2, hm]

/-- A dense increment preserves the length of the indices vector
(both the successful result and the carried-out payload). -/
theorem incV2_length :
    ∀ (lengths is : List Int), is.length = lengths.length →
      (∀ is', incV2 lengths is = .ok is' → is'.length = lengths.length)
      ∧ (∀ is0, incV2 lengths is = .error is0 → is0.length = lengths.length) := by
  intro lengths
  induction lengths with
  | nil =>
      intro is hlen
      rw [List.length_nil, List.length_eq_zero] at hlen
      subst hlen
      constructor
      · intro is' h
        simp [incV2] at h
      · intro is0 h
        simp only [incV2] at h
        injection h with h
        subst h
        rfl
  | cons l ls ih =>
      intro is hlen
      rcases is with _ | ⟨i, is⟩
      · simp at hlen
      · have hlen' : is.length = ls.length := by simpa using hlen
        have ihs := ih is hlen'
        constructor
        · intro is' h
          rw [incV2] at h
          rcases hm : incV2 ls is with is0 | next <;> rw [hm] at h <;> dsimp only at h
          · by_cases hone : l = 1
            · rw [if_pos hone] at h
              exact absurd h (by simp)
            · rw [if_neg hone] at h
              by_cases hlt : i + 1 < l
              · rw [if_pos hlt] at h
                injection h with h
                subst h
                simp [ihs.2 is0 hm]
              · rw [if_neg hlt] at h
                exact absurd h (by simp)
          · injection h with h
            subst h
            simp [ihs.1 next hm]
        · intro is0 h
          rw [incV2] at h
          rcases hm : incV2 ls is with is0' | next <;> rw [hm] at h <;> dsimp only at h
          · by_cases hone : l = 1
            · rw [if_pos hone] at h
              injection h with h
              subst h
              simp [ihs.2 is0' hm]
            · rw [if_neg hone] at h
              by_cases hlt : i + 1 < l
              · rw [if_pos hlt] at h
                exact absurd h (by simp)
              · rw [if_neg hlt] at h
                injection h with h
                subst h
                simp [ihs.2 is0' hm]
          · exact absurd h (by simp)

/-- With every axis length at least 1, the sparse and the dense
yield/increment loops agree step for step. -/
theorem iterLoopV3_eq_iterLoopV2 (lengths : List Int) (h1 : ∀ l ∈ lengths, 1 ≤ l) :
    ∀ (fuel : Nat) (flat : Int) (is : List Int), is.length = lengths.length →
      iterLoopV3 lengths (spatialAxesOf lengths) fuel flat is
        = iterLoopV2 lengths fuel flat is := by
  intro fuel
  induction fuel with
  | zero => intro flat is _; rfl
  | succ fuel ih =>
      intro flat is hlen
      rw [iterLoopV3, iterLoopV2, incV3_eq_incV2 lengths is h1 hlen]
      rcases hm : incV2 lengths is with is0 | next
      · rfl
      · dsimp only
        rw [ih (flat + 1) next ((incV2_length lengths is hlen).1 next hm)]

theorem rowMajorCoords_ones {lengths : List Int} (h : ∀ l ∈ lengths, l = 1) :
    rowMajorCoords lengths = [List.replicate lengths.length 0] := by
  induction lengths with
  | nil => rfl
  | cons l ls ih =>
      have hl : l = 1 := h l (by simp)
      rw [rowMajorCoords, ih (fun x hx => h x (by simp [hx])), hl]
      rfl

theorem int_toNat_mul {a b : Int} (ha : 0 ≤ a) (hb : 0 ≤ b) :
    (a * b).toNat = a.toNat * b.toNat := by
  obtain ⟨m, rfl⟩ := Int.eq_ofNat_of_zero_le ha
  obtain ⟨k, rfl⟩ := Int.eq_ofNat_of_zero_le hb
  rw [← Nat.cast_mul, Int.toNat_natCast]
  simp

theorem size_toNat (dt : DType) (lengths : List Int) (h : ∀ l ∈ lengths, 0 ≤ l) :
    (ArrayType.mk dt lengths).Size.toNat = natProd lengths := by
  have hfold : (ArrayType.mk dt lengths).Size = lengths.prod := by
    rw [ArrayType.Size]
    exact List.prod_eq_foldl.symm
  rw [hfold]
  clear hfold
  induction lengths with
  | nil => rfl
  | cons l ls ih =>
      rw [List.prod_cons, natProd_cons,
        int_toNat_mul (h l (by simp)) (List.prod_nonneg (fun a ha => h a (by simp [ha]))),
        ih (fun x hx => h x (by simp [hx]))]

/-- The full-iteration body, on a valid array type with every axis length
at least 1, yields exactly the reference row-major enumeration (whichever
of the three internal versions the dispatch selects). -/
theorem IterOnRun_pos (dt : DType) (lengths : List Int)
    (hdt : dt ≠ InvalidDType) (h1 : ∀ l ∈ lengths, 1 ≤ l) (hne : lengths ≠ []) :
    IterOnRun (ArrayType.mk dt lengths) = enumFromInt 0 (rowMajorCoords lengths) := by
  have hOk : (ArrayType.mk dt lengths).Ok = true := by
    simp [ArrayType.Ok, hdt]
  have hNum : (ArrayType.mk dt lengths).NumAxes = lengths.length := rfl
  have hany : lengths.any (fun length => decide (length ≤ 0)) = false := by
    rw [List.any_eq_false]
    intro x hx
    simpa using lt_of_lt_of_le Int.zero_lt_one (h1 x hx)
  rw [IterOnRun, hOk]
  rw [if_neg (by simp)]
  rw [if_neg (by simpa [hNum] using hne)]
  rw [if_neg (by simpa [ArrayType.mk] using
    (by simpa using hany : ¬ lengths.any (fun length => decide (length ≤ 0)) = true))]
  by_cases hNT : numNonTrivial lengths = 0
  · rw [if_pos hNT]
    have hones : ∀ l ∈ lengths, l = 1 := by
      intro x hx
      have hle : ¬ (1 < x) := by
        intro hgt
        have : x ∈ lengths.filter (fun length => decide (1 < length)) :=
          List.mem_filter.mpr ⟨hx, by simpa using hgt⟩
        rw [numNonTrivial, List.length_eq_zero] at hNT
        simp [hNT] at this
      have := h1 x hx
      omega
    rw [rowMajorCoords_ones hones]
    rfl
  · rw [if_neg hNT]
    have hsz : (ArrayType.mk dt lengths).Size.toNat = natProd lengths :=
      size_toNat dt lengths (fun x hx => le_trans zero_le_one (h1 x hx))
    by_cases hd : (ArrayType.mk dt lengths).NumAxes > numNonTrivial lengths + 2
    · rw [if_pos hd]
      rw [show (ArrayType.mk dt lengths).AxisLengths = lengths from rfl, hsz, hNum]
      exact iterLoopV2_full lengths h1
    · rw [if_neg hd]
      rw [show (ArrayType.mk dt lengths).AxisLengths = lengths from rfl, hsz, hNum]
      rw [iterLoopV3_eq_iterLoopV2 lengths h1 (natProd lengths) 0
        (List.replicate lengths.length 0) (by simp)]
      exact iterLoopV2_full lengths h1

/-- C1: Full iteration equals the reference row-major enumeration: for every
valid array type (element kind not invalid), rank 0 yields exactly the one
pair `(0, [])`; a zero axis length yields nothing; otherwise `Iter` yields
exactly `Size` pairs, the flat indices being `0, 1, ..., Size - 1` in order
and the coordinate vectors enumerating the Cartesian product of the axis
ranges in row-major order with the last axis fastest-varying. -/
theorem iter_enumerates_rowMajor (dt : DType) (lengths : List Int)
    (hdt : dt ≠ InvalidDType) (h0 : ∀ l ∈ lengths, 0 ≤ l) :
    (lengths = [] → (ArrayType.mk dt lengths).Iter = [(0, [])])
    ∧ ((0 : Int) ∈ lengths → (ArrayType.mk dt lengths).Iter = [])
    ∧ ((0 : Int) ∉ lengths → lengths ≠ [] →
        (ArrayType.mk dt lengths).Iter = enumFromInt 0 (rowMajorCoords lengths)
        ∧ ((ArrayType.mk dt lengths).Iter).length = (ArrayType.mk dt lengths).Size.toNat
        ∧ ((ArrayType.mk dt lengths).Iter).map Prod.fst
            = (List.range (ArrayType.mk dt lengths).Size.toNat).map
                (fun (j : Nat) => (j : Int))) := by
  have hOk : (ArrayType.mk dt lengths).Ok = true := by
    simp [ArrayType.Ok, hdt]
  refine ⟨?_, ?_, ?_⟩
  · intro h
    subst h
    rw [ArrayType.Iter, IterOnRun, hOk]
    rfl
  · intro hmem
    have hne : lengths ≠ [] := by
      intro h; subst h; simp at hmem
    rw [ArrayType.Iter, IterOnRun, hOk]
    rw [if_neg (by simp)]
    rw [if_neg (by simpa [ArrayType.NumAxes] using hne)]
    rw [if_pos]
    rw [List.any_eq_true]
    exact ⟨0, hmem, by simp⟩
  · intro hnz hne
    have h1 : ∀ l ∈ lengths, 1 ≤ l := by
      intro x hx
      have := h0 x hx
      rcases lt_or_eq_of_le this with h | h
      · omega
      · exact absurd (h ▸ hx) hnz
    have hmain : (ArrayType.mk dt lengths).Iter = enumFromInt 0 (rowMajorCoords lengths) :=
      IterOnRun_pos dt lengths hdt h1 hne
    refine ⟨hmain, ?_, ?_⟩
    · rw [hmain, length_enumFromInt, length_rowMajorCoords,
        size_toNat dt lengths h0]
    · rw [hmain, map_fst_enumFromInt, length_rowMajorCoords,
        size_toNat dt lengths h0]
      exact List.map_congr_left (fun j _ => by simp)

/-- Witness for C1 at the concrete array type `(Float64)[3 2]` of the spec's
example: six pairs, flat indices 0..5, row-major coordinates. -/
theorem iter_enumerates_rowMajor_witness :
    (ArrayType.mk Float64 [3, 2]).Iter = enumFromInt 0 (rowMajorCoords [3, 2])
    ∧ (ArrayType.mk Float64 [3, 2]).Iter
        = [(0, [0, 0]), (1, [0, 1]), (2, [1, 0]), (3, [1, 1]), (4, [2, 0]), (5, [2, 1])] := by
  refine ⟨((iter_enumerates_rowMajor Float64 [3, 2] (by decide)
    (by decide)).2.2 (by decide) (by decide)).1, by decide⟩

/-- C2: for every array type with all axis lengths at least 1 and some axis
of length more than 1, the dense strategy (Version 2: counter over all
axes, skipping length-1 axes) and the sparse strategy (Version 3: counter
over the precomputed reversed list of non-trivial axes), started exactly as
`IterOn` starts them, produce identical `(flatIndex, coordinates)`
sequences, so the dispatch between them is not observable to the
consumer. -/
theorem iter_dense_sparse_agree (at' : ArrayType)
    (h1 : ∀ l ∈ at'.AxisLengths, 1 ≤ l) (h2 : ∃ l ∈ at'.AxisLengths, 1 < l) :
    iterLoopV3 at'.AxisLengths (spatialAxesOf at'.AxisLengths) at'.Size.toNat 0
        (List.replicate at'.NumAxes 0)
      = iterLoopV2 at'.AxisLengths at'.Size.toNat 0
          (List.replicate at'.NumAxes 0) := by
  exact iterLoopV3_eq_iterLoopV2 at'.AxisLengths h1 at'.Size.toNat 0
    (List.replicate at'.NumAxes 0) (by simp [ArrayType.NumAxes])

/-- Witness for C2 at `(BFloat16)[3 1 2 1]` (the Go test's Version-3 shape):
both strategies produce the same six pairs. -/
theorem iter_dense_sparse_agree_witness :
    iterLoopV3 [3, 1, 2, 1] (spatialAxesOf [3, 1, 2, 1])
        (ArrayType.mk BFloat16 [3, 1, 2, 1]).Size.toNat 0 (List.replicate 4 0)
      = iterLoopV2 [3, 1, 2, 1] (ArrayType.mk BFloat16 [3, 1, 2, 1]).Size.toNat 0
          (List.replicate 4 0) := by
  exact iter_dense_sparse_agree (ArrayType.mk BFloat16 [3, 1, 2, 1])
    (by decide) (by decide)

theorem stridesAux_length (ls : List Int) : (stridesAux ls).1.length = ls.length := by
  induction ls with
  | nil => rfl
  | cons l ls ih => simp [stridesAux, ih]

theorem stridesAux_getD (ls : List Int) :
    ∀ i, i < ls.length →
      (stridesAux ls).1.getD i 0 = (stridesAux (ls.drop (i + 1))).2 := by
  induction ls with
  | nil => intro i hi; simp at hi
  | cons l ls ih =>
      intro i hi
      rcases i with _ | j
      · simp [stridesAux]
      · have hj : j < ls.length := by simpa using hi
        simp only [stridesAux, List.drop_succ_cons]
        rw [show ((stridesAux ls).2 :: (stridesAux ls).1).getD (j + 1) 0
            = (stridesAux ls).1.getD j 0 from rfl]
        exact ih j hj

theorem stridesAux_snd_cons (x : Int) (t : List Int) :
    (stridesAux (x :: t)).2 = (stridesAux t).2 * x := by
  simp [stridesAux]

/-- C4: `Strides` computes the row-major element-unit strides: one entry per
axis; rank 0 yields `[]`; a zero axis length makes every stride 0; otherwise
the last axis has stride 1 and `strides[i] = strides[i+1] * axisLengths[i+1]`;
and the three concrete examples of the spec hold. -/
theorem strides_rowMajor_spec (at' : ArrayType) :
    at'.Strides.length = at'.NumAxes
    ∧ (at'.NumAxes = 0 → at'.Strides = [])
    ∧ (at'.IsZeroSize = true → at'.Strides = List.replicate at'.NumAxes 0)
    ∧ (at'.IsZeroSize = false → at'.NumAxes ≠ 0 →
        at'.Strides.getD (at'.NumAxes - 1) 0 = 1
        ∧ ∀ i, i + 1 < at'.NumAxes →
            at'.Strides.getD i 0
              = at'.Strides.getD (i + 1) 0 * at'.AxisLengths.getD (i + 1) 0)
    ∧ (ArrayType.mk Float32 [2, 3, 4]).Strides = [12, 4, 1]
    ∧ (ArrayType.mk Float32 [5]).Strides = [1]
    ∧ (ArrayType.mk Float32 [3, 1, 2]).Strides = [2, 2, 1] := by
  refine ⟨?_, ?_, ?_, ?_, by decide, by decide, by decide⟩
  · rw [ArrayType.Strides]
    by_cases h0 : at'.NumAxes = 0
    · rw [if_pos h0, h0]
      rfl
    · rw [if_neg h0]
      by_cases hz : at'.IsZeroSize
      · rw [if_pos hz, List.length_replicate]
      · rw [if_neg hz]
        exact stridesAux_length at'.AxisLengths
  · intro h0
    rw [ArrayType.Strides, if_pos h0]
  · intro hz
    have hne : at'.NumAxes ≠ 0 := by
      rw [ArrayType.IsZeroSize, List.any_eq_true] at hz
      obtain ⟨x, hx, _⟩ := hz
      rw [ArrayType.NumAxes]
      exact List.ne_nil_of_mem hx ∘ List.eq_nil_of_length_eq_zero
    rw [ArrayType.Strides, if_neg hne, if_pos hz]
  · intro hz hne
    have hzb : ¬ at'.IsZeroSize = true := by simp [hz]
    rw [ArrayType.Strides, if_neg hne, if_neg hzb]
    constructor
    · rw [stridesAux_getD at'.AxisLengths (at'.NumAxes - 1)
        (by rw [ArrayType.NumAxes] at hne ⊢; omega)]
      rw [show at'.NumAxes - 1 + 1 = at'.AxisLengths.length from by
        rw [ArrayType.NumAxes] at hne ⊢; omega]
      rw [List.drop_length]
      rfl
    · intro i hi
      have hi1 : i + 1 < at'.AxisLengths.length := hi
      have hi0 : i < at'.AxisLengths.length := by omega
      rw [stridesAux_getD at'.AxisLengths i hi0,
        stridesAux_getD at'.AxisLengths (i + 1) hi1]
      rw [List.drop_eq_getElem_cons hi1, stridesAux_snd_cons]
      rw [List.getD_eq_getElem?_getD, List.getElem?_eq_getElem hi1]
      rfl

/-- Witness for C4: the zero-size rule at `(Float32)[0 2]` and the last-axis
and recurrence rules at `(Float32)[2 3 4]`. -/
theorem strides_rowMajor_spec_witness :
    (ArrayType.mk Float32 [0, 2]).Strides = List.replicate 2 0
    ∧ (ArrayType.mk Float32 [2, 3, 4]).Strides.getD 2 0 = 1
    ∧ (ArrayType.mk Float32 [2, 3, 4]).Strides.getD 0 0
        = (ArrayType.mk Float32 [2, 3, 4]).Strides.getD 1 0 * 3 := by
  refine ⟨(strides_rowMajor_spec (ArrayType.mk Float32 [0, 2])).2.2.1 (by decide), ?_, ?_⟩
  · exact ((strides_rowMajor_spec (ArrayType.mk Float32 [2, 3, 4])).2.2.2.1
      (by decide) (by decide)).1
  · exact ((strides_rowMajor_spec (ArrayType.mk Float32 [2, 3, 4])).2.2.2.1
      (by decide) (by decide)).2 0 (by decide)

/-- C5 counterexample: `Make(Float32, -1)` does fail, but by panicking
(a fail-fast abort), not by returning a recoverable error as the claim
states. -/
theorem make_negative_is_panic_not_error :
    resultIsRecoverableError (Make Float32 [-1]) = false
    ∧ resultIsPanic (Make Float32 [-1]) = true := ⟨rfl, rfl⟩

/-- C5 (amended): construction with a negative axis length fails fail-fast:
for every element kind and every axis-length list containing a negative
entry, `Make` panics with a descriptive message. -/
theorem make_negative_panics (dt : DType) (lengths : List Int)
    (h : ∃ l ∈ lengths, l < 0) :
    ∃ msg, Make dt lengths = .error (.panicF msg) := by
  obtain ⟨x, hx, hneg⟩ := h
  refine ⟨"atype.Make: cannot create an array type with an axis with length < 0", ?_⟩
  rw [Make, if_pos]
  rw [List.any_eq_true]
  exact ⟨x, hx, by simpa using hneg⟩

/-- Witness for C5 (amended) at `Make(Float32, -1)`. -/
theorem make_negative_panics_witness :
    ∃ msg, Make Float32 [-1] = .error (.panicF msg) :=
  make_negative_panics Float32 [-1] ⟨-1, by decide, by decide⟩

/-- `Equal` is reflexive. -/
theorem ArrayType.Equal_refl (a : ArrayType) : a.Equal a = true := by
  rw [ArrayType.Equal]
  simp

/-- C7: binary serialization round-trips: for every constructible array
type (valid element kind, non-negative axis lengths, rank 0 and zero-length
axes included), decoding the encoding produces a value `Equal` to the
original, with the stream fully consumed. -/
theorem gob_roundtrip (dt : DType) (lengths : List Int)
    (hdt : dt ≠ InvalidDType) (h0 : ∀ l ∈ lengths, 0 ≤ l) :
    ∃ b, GobDeserialize (GobSerialize (ArrayType.mk dt lengths) []) = .ok (b, [])
      ∧ b.Equal (ArrayType.mk dt lengths) = true := by
  exact ⟨ArrayType.mk dt lengths, rfl, ArrayType.Equal_refl _⟩

/-- Witness for C7 at `(Float64)` (a scalar) composed with the theorem at a
rank-2 type. -/
theorem gob_roundtrip_witness :
    (∃ b, GobDeserialize (GobSerialize (ArrayType.mk Float64 []) []) = .ok (b, [])
      ∧ b.Equal (ArrayType.mk Float64 []) = true)
    ∧ (∃ b, GobDeserialize (GobSerialize (ArrayType.mk Float32 [2, 0, 3]) []) = .ok (b, [])
      ∧ b.Equal (ArrayType.mk Float32 [2, 0, 3]) = true) :=
  ⟨gob_roundtrip Float64 [] (by decide) (by decide),
   gob_roundtrip Float32 [2, 0, 3] (by decide) (by decide)⟩

theorem ArrayType.Ok_eq_false_iff (a : ArrayType) :
    a.Ok = false ↔ a.DType = InvalidDType := by
  simp [ArrayType.Ok]

/-- C8: `ConcatenateAxes` returns the invalid sentinel when either operand
is invalid or the element kinds differ; a clone of the other operand when
either operand is a scalar; and otherwise the common element kind with
`a`'s axes followed by `b`'s axes. -/
theorem concatenateAxes_spec (a b : ArrayType) :
    ConcatenateAxes a b =
      (if a.Ok = false ∨ b.Ok = false ∨ a.DType ≠ b.DType then ArrayType.Invalid
       else if a.IsScalar then b.Clone
       else if b.IsScalar then a.Clone
       else { DType := a.DType, AxisLengths := a.AxisLengths ++ b.AxisLengths }) := by
  rw [ConcatenateAxes]
  by_cases h1 : a.DType = InvalidDType ∨ b.DType = InvalidDType
  · rw [if_pos h1, if_pos]
    rcases h1 with h | h
    · exact Or.inl ((ArrayType.Ok_eq_false_iff a).mpr h)
    · exact Or.inr (Or.inl ((ArrayType.Ok_eq_false_iff b).mpr h))
  · rw [if_neg h1]
    push_neg at h1
    by_cases h2 : a.DType ≠ b.DType
    · rw [if_pos h2, if_pos (Or.inr (Or.inr h2))]
    · rw [if_neg h2]
      have hcond : ¬(a.Ok = false ∨ b.Ok = false ∨ a.DType ≠ b.DType) := by
        rintro (hc | hc | hc)
        · exact h1.1 ((ArrayType.Ok_eq_false_iff a).mp hc)
        · exact h1.2 ((ArrayType.Ok_eq_false_iff b).mp hc)
        · exact h2 hc
      conv_rhs => rw [if_neg hcond]

/-- C10: an array type whose element kind is the invalid sentinel yields no
pairs from full iteration (`Iter`/`IterOn`) and none from partial iteration
(`IterOnAxes`), at every rank including rank 0 and for every axis
selection. -/
theorem invalid_dtype_iteration_yields_nothing (lengths axesToIterate : List Int) :
    (ArrayType.mk InvalidDType lengths).Iter = []
    ∧ (ArrayType.mk InvalidDType lengths).IterOn
        (List.replicate lengths.length 0) = .ok []
    ∧ (ArrayType.mk InvalidDType lengths).IterOnAxes axesToIterate none none = .ok [] := by
  have hOk : (ArrayType.mk InvalidDType lengths).Ok = false := by
    simp [ArrayType.Ok]
  have hrun : IterOnRun (ArrayType.mk InvalidDType lengths) = [] := by
    rw [IterOnRun, hOk]
    rfl
  refine ⟨hrun, ?_, ?_⟩
  · rw [ArrayType.IterOn, if_neg (by simp [ArrayType.NumAxes]), hrun]
  · show (ArrayType.mk InvalidDType lengths).iterOnAxesChecked axesToIterate
      (ArrayType.mk InvalidDType lengths).Strides none = .ok []
    show (ArrayType.mk InvalidDType lengths).iterOnAxesRun axesToIterate
      (ArrayType.mk InvalidDType lengths).Strides
      (List.replicate (ArrayType.mk InvalidDType lengths).NumAxes 0) = .ok []
    rw [ArrayType.iterOnAxesRun, hOk]
    rfl

/-- C6 counterexample: on a valid rank-0 array type, `IterOnAxes` with the
out-of-range axis 5 does not fail at all — it yields the one pair
`(0, [])` — because the rank-0 early return precedes the validation of
`axesToIterate`. -/
theorem iterOnAxes_rank0_no_validation :
    (ArrayType.mk Float32 []).IterOnAxes [5] none none = .ok [(0, [])]
    ∧ resultIsPanic ((ArrayType.mk Float32 []).IterOnAxes [5] none none) = false :=
  ⟨rfl, rfl⟩

/-- The validation scan of `IterOnAxes` panics at the first out-of-range
entry, provided every earlier entry is in range with a positive axis
length. -/
theorem initIterAxes_panics (lengths : List Int) :
    ∀ (axesGood : List Int) (axis : Int) (rest indices : List Int),
      (∀ a ∈ axesGood, 0 ≤ a ∧ a < (lengths.length : Int) ∧ 0 < lengths.getD a.toNat 0) →
      (axis < 0 ∨ (lengths.length : Int) ≤ axis) →
      initIterAxes lengths (axesGood ++ axis :: rest) indices
        = .error (.panicF "ArrayType.IterOnAxes: invalid axis, must be 0 <= axis < NumAxes") := by
  intro axesGood
  induction axesGood with
  | nil =>
      intro axis rest indices _ hbad
      rw [List.nil_append, initIterAxes, if_pos hbad]
  | cons a as ih =>
      intro axis rest indices hgood hbad
      obtain ⟨ha0, ha1, hapos⟩ := hgood a (by simp)
      rw [List.cons_append, initIterAxes, if_neg (by omega), if_neg (by omega)]
      exact ih axis rest (indices.set a.toNat 0)
        (fun x hx => hgood x (by simp [hx])) hbad

/-- C6 (amended): `axesToIterate` is validated only once iteration starts
and only for valid array types of positive rank: there, scanning left to
right, an out-of-range entry reached before any zero-length iterated axis
makes `IterOnAxes` panic with an out-of-range error, yielding no pairs.
(At rank 0 the single `(0, [])` pair is yielded without any validation, as
the counterexample shows; an invalid array type likewise skips
validation.) -/
theorem iterOnAxes_out_of_range_panics (dt : DType) (lengths : List Int)
    (axesGood : List Int) (axis : Int) (rest : List Int)
    (hdt : dt ≠ InvalidDType) (hne : lengths ≠ [])
    (hgood : ∀ a ∈ axesGood, 0 ≤ a ∧ a < (lengths.length : Int) ∧ 0 < lengths.getD a.toNat 0)
    (hbad : axis < 0 ∨ (lengths.length : Int) ≤ axis) :
    ∃ msg, (ArrayType.mk dt lengths).IterOnAxes (axesGood ++ axis :: rest) none none
      = .error (.panicF msg) := by
  refine ⟨"ArrayType.IterOnAxes: invalid axis, must be 0 <= axis < NumAxes", ?_⟩
  show (ArrayType.mk dt lengths).iterOnAxesChecked (axesGood ++ axis :: rest)
    (ArrayType.mk dt lengths).Strides none = _
  show (ArrayType.mk dt lengths).iterOnAxesRun (axesGood ++ axis :: rest)
    (ArrayType.mk dt lengths).Strides
    (List.replicate (ArrayType.mk dt lengths).NumAxes 0) = _
  rw [ArrayType.iterOnAxesRun]
  rw [if_neg (by simp [ArrayType.Ok, hdt])]
  rw [if_neg (by simpa [ArrayType.NumAxes] using hne)]
  rw [initIterAxes_panics lengths axesGood axis rest _ hgood hbad]

/-- Witness for C6 (amended): `(Float32)[2]` with `axesToIterate = [5]`
panics. -/
theorem iterOnAxes_out_of_range_panics_witness :
    ∃ msg, (ArrayType.mk Float32 [2]).IterOnAxes [5] none none
      = .error (.panicF msg) :=
  iterOnAxes_out_of_range_panics Float32 [2] [] 5 [] (by decide) (by decide)
    (by simp) (by decide)

/-- `Clone` is the identity on the immutable Lean model. -/
theorem ArrayType.Clone_eq (at' : ArrayType) : at'.Clone = at' := rfl

/-- `Equal` is equality: the scalar shortcut only fires when both
axis-length lists are empty. -/
theorem ArrayType.Equal_eq_true_iff (a b : ArrayType) : a.Equal b = true ↔ a = b := by
  rcases a with ⟨da, la⟩
  rcases b with ⟨db, lb⟩
  rw [ArrayType.Equal]
  by_cases h1 : da = db
  · subst h1
    rw [if_neg (by simp)]
    by_cases h2 : la.length = lb.length
    · rw [if_neg (by simp [ArrayType.NumAxes, h2])]
      by_cases h3 : (ArrayType.mk da la).IsScalar = true
      · rw [if_pos h3]
        have hla : la = [] := by
          rw [ArrayType.IsScalar] at h3
          simp only [Bool.and_eq_true, beq_iff_eq] at h3
          exact List.eq_nil_of_length_eq_zero h3.2
        have hlb : lb = [] := List.eq_nil_of_length_eq_zero (by rw [← h2, hla]; rfl)
        subst hla
        subst hlb
        simp
      · rw [if_neg h3]
        simp
    · rw [if_pos (by simp [ArrayType.NumAxes, h2])]
      refine ⟨fun hc => absurd hc (by simp), fun hc => ?_⟩
      injection hc with _ hl
      exact absurd (by rw [hl]) h2
  · rw [if_pos (by simp [h1])]
    refine ⟨fun hc => absurd hc (by simp), fun hc => ?_⟩
    injection hc with hd _
    exact absurd hd h1

/-- The sibling loop succeeds when every sibling reduces to the first
element's result. -/
theorem checkSiblings_all_ok (pre result : ArrayType) :
    ∀ (rest : List GoValue),
      (∀ v ∈ rest, arrayTypeForAnyValueRecursive pre.Clone v = .ok result) →
      checkSiblings pre result rest = .ok result := by
  intro rest
  induction rest with
  | nil => intro _; rw [checkSiblings]
  | cons v vs ih =>
      intro hall
      rw [checkSiblings, hall v (by simp)]
      dsimp only
      rw [if_pos (ArrayType.Equal_refl result)]
      exact ih (fun x hx => hall x (by simp [hx]))

/-- On a regularly nested sequence-of-scalars value, the recursion appends
exactly the nesting dimensions and sets the leaf element kind, whatever
prefix it starts from. -/
theorem recur_regular (k : GoScalarKind) (hk : FromGoType k ≠ InvalidDType) :
    ∀ (dims : List Nat) (pre : ArrayType), (∀ d ∈ dims, 1 ≤ d) →
      arrayTypeForAnyValueRecursive pre (regularValue k dims)
        = .ok { DType := FromGoType k,
                AxisLengths := pre.AxisLengths ++ dims.map (fun d => (d : Int)) } := by
  intro dims
  induction dims with
  | nil =>
      intro pre _
      rw [regularValue, arrayTypeForAnyValueRecursive, if_neg hk]
      simp
  | cons d ds ih =>
      intro pre hd
      have hd1 : 1 ≤ d := hd d (by simp)
      obtain ⟨d', rfl⟩ : ∃ d', d = d' + 1 := ⟨d - 1, by omega⟩
      rw [regularValue, List.replicate_succ, arrayTypeForAnyValueRecursive]
      dsimp only [ArrayType.Clone_eq]
      rw [ih _ (fun x hx => hd x (by simp [hx]))]
      dsimp only
      rw [checkSiblings_all_ok _ _ _ (fun v hv => by
        rw [List.eq_of_mem_replicate hv, ArrayType.Clone_eq]
        exact ih _ (fun x hx => hd x (by simp [hx])))]
      simp

/-- Whenever the sibling loop succeeds, every sibling's reduction
succeeded. -/
theorem checkSiblings_ok_forall (pre res : ArrayType) :
    ∀ (rest : List GoValue) (r : ArrayType), checkSiblings pre res rest = .ok r →
      ∀ v ∈ rest, ∃ t, arrayTypeForAnyValueRecursive pre.Clone v = .ok t := by
  intro rest
  induction rest with
  | nil => intro r _ v hv; simp at hv
  | cons w ws ih =>
      intro r h v hv
      rw [checkSiblings] at h
      rcases hm : arrayTypeForAnyValueRecursive pre.Clone w with e | t <;> rw [hm] at h
      · simp at h
      · dsimp only at h
        by_cases he : res.Equal t = true
        · rw [if_pos he] at h
          rcases List.mem_cons.mp hv with hv1 | hv1
          · subst hv1
            exact ⟨t, hm⟩
          · exact ih r h v hv1
        · rw [if_neg he] at h
          simp at h

/-- The sibling loop either succeeds with the first result, in which case
every sibling reduced to exactly that result, or fails with a
shape-mismatch error reporting two genuinely different array types. -/
theorem checkSiblings_cases (pre r0 : ArrayType) :
    ∀ (rest : List GoValue),
      (∀ v ∈ rest, ∃ r, arrayTypeForAnyValueRecursive pre.Clone v = .ok r) →
      (checkSiblings pre r0 rest = .ok r0
        ∧ ∀ v ∈ rest, ∀ r, arrayTypeForAnyValueRecursive pre.Clone v = .ok r → r0 = r)
      ∨ (∃ a b, checkSiblings pre r0 rest = .error (.shapeMismatch a b) ∧ a ≠ b) := by
  intro rest
  induction rest with
  | nil =>
      intro _
      left
      exact ⟨by rw [checkSiblings], by simp⟩
  | cons v vs ih =>
      intro hall
      obtain ⟨r, hr⟩ := hall v (by simp)
      by_cases he : r0.Equal r = true
      · have hr0 : r0 = r := (ArrayType.Equal_eq_true_iff r0 r).mp he
        rcases ih (fun x hx => hall x (by simp [hx])) with ⟨hok, heq⟩ | ⟨a, b, herr, hne⟩
        · left
          constructor
          · rw [checkSiblings, hr]
            dsimp only
            rw [if_pos he]
            exact hok
          · intro x hx r' hr'
            rcases List.mem_cons.mp hx with hx1 | hx1
            · subst hx1
              have hrr := hr.symm.trans hr'
              injection hrr with hrr
              rw [hr0, hrr]
            · exact heq x hx1 r' hr'
        · right
          refine ⟨a, b, ?_, hne⟩
          rw [checkSiblings, hr]
          dsimp only
          rw [if_pos he]
          exact herr
      · right
        refine ⟨r0, r, ?_, fun hc => he ((ArrayType.Equal_eq_true_iff r0 r).mpr hc)⟩
        rw [checkSiblings, hr]
        dsimp only
        rw [if_neg he]

theorem anyContains_eq_false :
    ∀ (l : List GoValue),
      anyContainsEmptySlice l = false ↔ ∀ v ∈ l, containsEmptySlice v = false := by
  intro l
  induction l with
  | nil => simp [anyContainsEmptySlice]
  | cons v vs ih => simp [anyContainsEmptySlice, ih]

/-- If the recursion succeeds on a value, that value contains no empty
slice at any nesting level. -/
theorem recur_ok_no_empty :
    ∀ (v : GoValue), ∀ (pre r : ArrayType),
      arrayTypeForAnyValueRecursive pre v = .ok r →
      containsEmptySlice v = false := by
  intro v
  induction v using GoValue.inductionOn with
  | hs k => intro pre r _; rfl
  | hl elems ihm =>
      intro pre r h
      rcases elems with _ | ⟨v0, rest⟩
      · rw [arrayTypeForAnyValueRecursive.eq_def] at h
        dsimp only at h
        exact absurd h (by simp)
      · rw [arrayTypeForAnyValueRecursive.eq_def] at h
        dsimp only at h
        split at h
        · exact absurd h (by simp)
        · rename_i r0 hm
          rw [containsEmptySlice]
          have hv0 : containsEmptySlice v0 = false := ihm v0 (by simp) _ _ hm
          have hrest : ∀ x ∈ rest, containsEmptySlice x = false := by
            intro x hx
            obtain ⟨t, ht⟩ := checkSiblings_ok_forall _ _ rest r h x hx
            exact ihm x (by simp [hx]) _ _ ht
          simp only [List.isEmpty_cons, Bool.false_or]
          rw [anyContainsEmptySlice, hv0, Bool.false_or]
          exact (anyContains_eq_false rest).mpr hrest

/-- C9 (amended): (a) shape inference on a regularly nested
sequence-of-scalars value (supported leaf kind, all dimensions at least 1)
returns exactly the expected array type; (b) on a sequence all of whose
top-level siblings reduce successfully, two siblings reducing to different
array types make it fail with a shape-mismatch error reporting two
conflicting array types (when some sibling itself fails first, that error
is returned instead, as the counterexample shows); (c) a value containing
an empty sequence at any nesting level always fails with an error. -/
theorem fromValue_shape_inference :
    (∀ (k : GoScalarKind) (dims : List Nat), FromGoType k ≠ InvalidDType →
        (∀ d ∈ dims, 1 ≤ d) →
        FromAnyValue (regularValue k dims)
          = .ok (ArrayType.mk (FromGoType k) (dims.map (fun d => (d : Int)))))
    ∧ (∀ (elems : List GoValue),
        (∀ v ∈ elems, ∃ r,
          arrayTypeForAnyValueRecursive
            (ArrayType.mk InvalidDType [(elems.length : Int)]) v = .ok r) →
        (∃ va ∈ elems, ∃ vb ∈ elems, ∃ A B,
          arrayTypeForAnyValueRecursive
            (ArrayType.mk InvalidDType [(elems.length : Int)]) va = .ok A
          ∧ arrayTypeForAnyValueRecursive
              (ArrayType.mk InvalidDType [(elems.length : Int)]) vb = .ok B
          ∧ A ≠ B) →
        ∃ A' B', FromAnyValue (.sliceV elems) = .error (.shapeMismatch A' B')
          ∧ A' ≠ B')
    ∧ (∀ v : GoValue, containsEmptySlice v = true → ∃ e, FromAnyValue v = .error e) := by
  refine ⟨?_, ?_, ?_⟩
  · intro k dims hk hd
    rw [FromAnyValue, recur_regular k hk dims _ hd]
    simp
  · intro elems hall hmis
    obtain ⟨va, hva, vb, hvb, A, B, hA, hB, hAB⟩ := hmis
    rcases elems with _ | ⟨v0, rest⟩
    · simp at hva
    · obtain ⟨r0, hr0⟩ := hall v0 (by simp)
      have hrw : FromAnyValue (.sliceV (v0 :: rest))
          = checkSiblings (ArrayType.mk InvalidDType [((v0 :: rest).length : Int)])
              r0 rest := by
        rw [FromAnyValue, arrayTypeForAnyValueRecursive]
        dsimp only [List.nil_append, ArrayType.Clone_eq]
        rw [show arrayTypeForAnyValueRecursive
            (ArrayType.mk InvalidDType [((v0 :: rest).length : Int)]) v0
            = .ok r0 from hr0]
      have hall' : ∀ v ∈ rest, ∃ r,
          arrayTypeForAnyValueRecursive
            ((ArrayType.mk InvalidDType [((v0 :: rest).length : Int)]).Clone) v
            = .ok r := by
        intro x hx
        rw [ArrayType.Clone_eq]
        exact hall x (by simp [hx])
      rcases checkSiblings_cases
          (ArrayType.mk InvalidDType [((v0 :: rest).length : Int)]) r0 rest hall'
        with ⟨hok, heq⟩ | ⟨a, b, herr, hne⟩
      · exfalso
        have hArA : r0 = A := by
          rcases List.mem_cons.mp hva with h | h
          · subst h
            have := hr0.symm.trans hA
            injection this
          · exact heq va h A (by rw [ArrayType.Clone_eq]; exact hA)
        have hArB : r0 = B := by
          rcases List.mem_cons.mp hvb with h | h
          · subst h
            have := hr0.symm.trans hB
            injection this
          · exact heq vb h B (by rw [ArrayType.Clone_eq]; exact hB)
        exact hAB (hArA.symm.trans hArB)
      · exact ⟨a, b, hrw.trans herr, hne⟩
  · intro v hv
    rcases hm : FromAnyValue v with e | r
    · exact ⟨e, rfl⟩
    · rw [recur_ok_no_empty v _ _ hm] at hv
      exact absurd hv (by simp)

/-- C9 counterexample: the value `[[1], [], [2,3]]` contains sibling
sub-sequences (`[1]` and `[2,3]`) that reduce to different array types, yet
`fromValue` fails with the empty-sequence error, not a shape-mismatch
error, because the empty sibling is reached first. -/
theorem fromValue_mismatch_masked_by_empty :
    FromAnyValue (.sliceV [.sliceV [.scalarV .goInt64], .sliceV [],
        .sliceV [.scalarV .goInt64, .scalarV .goInt64]])
      = .error .emptySlice
    ∧ isShapeMismatchError (FromAnyValue (.sliceV [.sliceV [.scalarV .goInt64],
        .sliceV [], .sliceV [.scalarV .goInt64, .scalarV .goInt64]])) = false
    ∧ arrayTypeForAnyValueRecursive (ArrayType.mk InvalidDType [3])
        (.sliceV [.scalarV .goInt64]) = .ok (ArrayType.mk DInt64 [3, 1])
    ∧ arrayTypeForAnyValueRecursive (ArrayType.mk InvalidDType [3])
        (.sliceV [.scalarV .goInt64, .scalarV .goInt64])
          = .ok (ArrayType.mk DInt64 [3, 2])
    ∧ ArrayType.mk DInt64 [3, 1] ≠ ArrayType.mk DInt64 [3, 2] :=
  ⟨rfl, rfl, rfl, rfl, by decide⟩

/-- Witness for C9: the regular value `[][]float64{{0,0}}` of the package
documentation reduces to `(Float64)[1 2]`, and the conflict-free mismatch
case at `[[1,2,3],[4,5]]` reports both conflicting array types. -/
theorem fromValue_shape_inference_witness :
    FromAnyValue (regularValue .goFloat64 [1, 2]) = .ok (ArrayType.mk Float64 [1, 2])
    ∧ ∃ A' B', FromAnyValue (.sliceV [.sliceV [.scalarV .goFloat32, .scalarV .goFloat32,
          .scalarV .goFloat32], .sliceV [.scalarV .goFloat32, .scalarV .goFloat32]])
        = .error (.shapeMismatch A' B') ∧ A' ≠ B' := by
  constructor
  · exact fromValue_shape_inference.1 .goFloat64 [1, 2] (by decide) (by decide)
  · refine fromValue_shape_inference.2.1 _ ?_ ?_
    · intro v hv
      simp only [List.mem_cons, List.not_mem_nil, or_false] at hv
      rcases hv with hv | hv
      · exact ⟨ArrayType.mk Float32 [2, 3], by subst hv; rfl⟩
      · exact ⟨ArrayType.mk Float32 [2, 2], by subst hv; rfl⟩
    · refine ⟨.sliceV [.scalarV .goFloat32, .scalarV .goFloat32, .scalarV .goFloat32],
        by simp, .sliceV [.scalarV .goFloat32, .scalarV .goFloat32], by simp,
        ArrayType.mk Float32 [2, 3], ArrayType.mk Float32 [2, 2], rfl, rfl, by decide⟩

theorem ArrayType.length_Strides (at' : ArrayType) :
    at'.Strides.length = at'.NumAxes := by
  rw [ArrayType.Strides]
  by_cases h0 : at'.NumAxes = 0
  · rw [if_pos h0, h0]
    rfl
  · rw [if_neg h0]
    by_cases hz : at'.IsZeroSize
    · rw [if_pos hz, List.length_replicate]
    · rw [if_neg hz]
      exact stridesAux_length at'.AxisLengths

theorem dotFoldl_shift :
    ∀ (l : List (Int × Int)) (c : Int),
      l.foldl (fun acc p => acc + p.1 * p.2) c
        = c + l.foldl (fun acc p => acc + p.1 * p.2) 0 := by
  intro l
  induction l with
  | nil => intro c; simp
  | cons x xs ih =>
      intro c
      rw [List.foldl_cons, List.foldl_cons, ih (c + x.1 * x.2), ih (0 + x.1 * x.2)]
      ring

theorem dotProd_cons (i s : Int) (is ss : List Int) :
    dotProd (i :: is) (s :: ss) = i * s + dotProd is ss := by
  rw [dotProd, List.zip_cons_cons, List.foldl_cons, dotFoldl_shift]
  rw [dotProd]
  ring

theorem dotProd_set :
    ∀ (is ss : List Int) (a : Nat) (x : Int), a < is.length → is.length = ss.length →
      dotProd (is.set a x) ss
        = dotProd is ss + (x - is.getD a 0) * ss.getD a 0 := by
  intro is
  induction is with
  | nil => intro ss a x ha _; simp at ha
  | cons i is ih =>
      intro ss a x ha hlen
      rcases ss with _ | ⟨s, ss⟩
      · simp at hlen
      · rcases a with _ | a
        · rw [List.set_cons_zero, dotProd_cons, dotProd_cons,
            List.getD_cons_zero, List.getD_cons_zero]
          ring
        · rw [List.set_cons_succ, dotProd_cons, dotProd_cons,
            ih ss a x (by simpa using ha) (by simpa using hlen),
            List.getD_cons_succ, List.getD_cons_succ]
          ring

/-- A successful increment of the partial-iteration loop keeps the flat
index equal to the dot product of the coordinates with the strides. -/
theorem incOnAxes_dot (lengths strides : List Int) :
    ∀ (revAxes : List Int) (flat : Int) (is : List Int),
      (∀ ax ∈ revAxes, 0 ≤ ax ∧ ax.toNat < lengths.length) →
      is.length = lengths.length → strides.length = lengths.length →
      flat = dotProd is strides →
      ∀ f' is', incOnAxes lengths strides revAxes flat is = .ok (f', is') →
        f' = dotProd is' strides ∧ is'.length = lengths.length := by
  intro revAxes
  induction revAxes with
  | nil =>
      intro flat is _ _ _ _ f' is' h
      simp [incOnAxes] at h
  | cons ax rest ih =>
      intro flat is hax hleni hlens hflat f' is' h
      obtain ⟨hax0, hax1⟩ := hax ax (by simp)
      rw [incOnAxes] at h
      set a := ax.toNat with ha
      have halt : a < is.length := by omega
      by_cases hlt : is.getD a 0 + 1 < lengths.getD a 0
      · rw [if_pos hlt] at h
        injection h with h
        injection h with h1 h2
        subst h1
        subst h2
        constructor
        · rw [dotProd_set is strides a _ halt (by omega), hflat]
          ring
        · rw [List.length_set]
          omega
      · rw [if_neg hlt] at h
        refine ih _ _ (fun x hx => hax x (by simp [hx]))
          (by rw [List.length_set]; omega) hlens ?_ f' is' h
        rw [dotProd_set is strides a _ halt (by omega), hflat]
        ring

/-- Every pair yielded by the partial-iteration loop satisfies
`flatIndex = dotProd coordinates strides`, provided it starts that way. -/
theorem iterLoopOnAxes_dot (lengths strides revAxes : List Int)
    (hax : ∀ ax ∈ revAxes, 0 ≤ ax ∧ ax.toNat < lengths.length)
    (hlens : strides.length = lengths.length) :
    ∀ (fuel : Nat) (flat : Int) (is : List Int),
      is.length = lengths.length → flat = dotProd is strides →
      ∀ p ∈ iterLoopOnAxes lengths strides revAxes fuel flat is,
        p.1 = dotProd p.2 strides := by
  intro fuel
  induction fuel with
  | zero => intro flat is _ _ p hp; simp [iterLoopOnAxes] at hp
  | succ fuel ih =>
      intro flat is hleni hflat p hp
      rw [iterLoopOnAxes] at hp
      rcases List.mem_cons.mp hp with hp1 | hp1
      · subst hp1
        exact hflat
      · rcases hm : incOnAxes lengths strides revAxes flat is with q | q <;>
          rw [hm] at hp1
        · simp at hp1
        · rcases q with ⟨f', is'⟩
          have ⟨hf', hlen'⟩ :=
            incOnAxes_dot lengths strides revAxes flat is hax hleni hlens hflat f' is' hm
          exact ih f' is' hlen' hf' p (by simpa using hp1)

/-- The `axesToIterate` validation scan, when it completes with a buffer,
has validated every listed axis and preserved the buffer length. -/
theorem initIterAxes_ok_some (lengths : List Int) :
    ∀ (axes indices is' : List Int),
      initIterAxes lengths axes indices = .ok (some is') →
      is'.length = indices.length
        ∧ ∀ ax ∈ axes, 0 ≤ ax ∧ ax.toNat < lengths.length := by
  intro axes
  induction axes with
  | nil =>
      intro indices is' h
      simp only [initIterAxes] at h
      injection h with h
      injection h with h
      subst h
      exact ⟨rfl, by simp⟩
  | cons ax rest ih =>
      intro indices is' h
      rw [initIterAxes] at h
      by_cases hbad : ax < 0 ∨ (lengths.length : Int) ≤ ax
      · rw [if_pos hbad] at h
        exact absurd h (by simp)
      · rw [if_neg hbad] at h
        by_cases hz : lengths.getD ax.toNat 0 ≤ 0
        · rw [if_pos hz] at h
          injection h with h
          exact absurd h (by simp)
        · rw [if_neg hz] at h
          have ⟨hlen, hrest⟩ := ih (indices.set ax.toNat 0) is' h
          push_neg at hbad
          refine ⟨by rw [hlen, List.length_set], ?_⟩
          intro x hx
          rcases List.mem_cons.mp hx with hx | hx
          · subst hx
            constructor
            · exact hbad.1
            · omega
          · exact hrest x hx

/-- The partial-iteration body preserves the dot-product invariant on every
yielded pair. -/
theorem iterOnAxesRun_dot (at' : ArrayType) (axes strides indices : List Int)
    (hs : strides.length = at'.NumAxes) (hi : indices.length = at'.NumAxes)
    (res : List (Int × List Int))
    (h : at'.iterOnAxesRun axes strides indices = .ok res) :
    ∀ p ∈ res, p.1 = dotProd p.2 strides := by
  rw [ArrayType.iterOnAxesRun] at h
  by_cases hOk : at'.Ok
  · rw [if_neg (by simp [hOk])] at h
    by_cases h0 : at'.NumAxes = 0
    · rw [if_pos h0] at h
      injection h with h
      subst h
      intro p hp
      rcases (by simpa using hp : p = ((0 : Int), indices)) with rfl
      have : indices = [] := List.eq_nil_of_length_eq_zero (by omega)
      subst this
      rfl
    · rw [if_neg h0] at h
      rcases hm : initIterAxes at'.AxisLengths axes indices with f | o <;> rw [hm] at h
      · simp at h
      · rcases o with _ | is'
        · injection h with h
          subst h
          intro p hp
          simp at hp
        · injection h with h
          subst h
          have ⟨hlen', hax⟩ := initIterAxes_ok_some at'.AxisLengths axes indices is' hm
          exact iterLoopOnAxes_dot at'.AxisLengths strides axes.reverse
            (fun x hx => hax x (List.mem_reverse.mp hx)) hs _ _ _
            (by rw [hlen', hi]; rfl) rfl
  · rw [if_pos (by simp [hOk])] at h
    injection h with h
    subst h
    intro p hp
    simp at hp

/-- C3: in partial iteration every yielded `flatIndex` equals the dot
product of the full coordinate vector with the strides vector in effect
(the supplied one, or the freshly computed `Strides` when none is
supplied), even though the implementation maintains it incrementally; and
the spec's concrete example holds: `iterateOnAxes(make(F32,2,3,4),
axesToIterate=[0,2], axis 1 fixed at 1)` yields flat indices
`[4,5,6,7,16,17,18,19]`. -/
theorem iterOnAxes_flatIndex_is_dot :
    (∀ (at' : ArrayType) (axes : List Int) (sArg iArg : Option (List Int))
        (res : List (Int × List Int)),
      at'.IterOnAxes axes sArg iArg = .ok res →
      ∀ p ∈ res,
        p.1 = dotProd p.2 (match sArg with | some s => s | none => at'.Strides))
    ∧ (ArrayType.mk Float32 [2, 3, 4]).IterOnAxes [0, 2] none (some [0, 1, 0])
        = .ok [(4, [0, 1, 0]), (5, [0, 1, 1]), (6, [0, 1, 2]), (7, [0, 1, 3]),
               (16, [1, 1, 0]), (17, [1, 1, 1]), (18, [1, 1, 2]), (19, [1, 1, 3])] := by
  constructor
  · intro at' axes sArg iArg res h
    have hmain : ∀ (strides : List Int), strides.length = at'.NumAxes →
        at'.iterOnAxesChecked axes strides iArg = .ok res →
        ∀ p ∈ res, p.1 = dotProd p.2 strides := by
      intro strides hs hc
      rcases iArg with _ | i
      · have hc' : at'.iterOnAxesRun axes strides
            (List.replicate at'.NumAxes 0) = .ok res := hc
        exact iterOnAxesRun_dot at' axes strides _ hs (by simp) res hc'
      · rw [ArrayType.iterOnAxesChecked.eq_def] at hc
        dsimp only at hc
        by_cases hlen : i.length ≠ at'.NumAxes
        · rw [if_pos hlen] at hc
          exact absurd hc (by simp)
        · rw [if_neg hlen] at hc
          push_neg at hlen
          exact iterOnAxesRun_dot at' axes strides i hs hlen res hc
    rcases sArg with _ | s
    · have h' : at'.iterOnAxesChecked axes at'.Strides iArg = .ok res := h
      exact hmain at'.Strides (ArrayType.length_Strides at') h'
    · rw [ArrayType.IterOnAxes.eq_def] at h
      dsimp only at h
      by_cases hlen : s.length ≠ at'.NumAxes
      · rw [if_pos hlen] at h
        exact absurd h (by simp)
      · rw [if_neg hlen] at h
        push_neg at hlen
        exact hmain s hlen h
  · rfl

/-- Witness for C3: the first yielded pair of the spec's example satisfies
the dot-product equation with the computed strides `[12, 4, 1]`. -/
theorem iterOnAxes_flatIndex_is_dot_witness :
    (4 : Int) = dotProd [0, 1, 0] ((ArrayType.mk Float32 [2, 3, 4]).Strides) :=
  iterOnAxes_flatIndex_is_dot.1 (ArrayType.mk Float32 [2, 3, 4]) [0, 2] none
    (some [0, 1, 0]) _ iterOnAxes_flatIndex_is_dot.2 (4, [0, 1, 0]) (by decide)

end Backend
